import Mathlib

/-!
Shallow embedding of `_extensions/hwpx/hwpx_writer.py` (Pandoc JSON AST →
HWPX document converter) together with proofs about its specification.

Conventions of the embedding:
* Python strings are Lean `String`s; scanning code works on `List Char`
  (`String.data`).  Code points (`ord`) are `Char.toNat`.
* Python's `re.sub`/`str.replace` calls are modelled by executable scanners
  with the same left-to-right, leftmost-match semantics (`replaceAllS`,
  `replaceFirstS`, and the shape-specific scanners for the math regexes).
* The global paragraph-id counter (`_para_id_counter`, seeded at
  3121190098 and incremented before each use) is threaded explicitly as a
  `Nat` state through every builder.
* `zipfile` archives are association lists of part name × byte list; HWPX
  part contents are opaque byte lists.
* Fallible operations (Python `str.index`, which raises `ValueError`)
  return `Option`.
* Floating point truncations `int(h * 0.85)` and
  `int(h * (pct - 100) / 100)` are modelled as the natural-number
  divisions `h * 85 / 100` and `h * (pct - 100) / 100`; they agree with
  the Python values on the configured heights and no claim depends on
  these two fields.
-/

set_option maxRecDepth 10000

namespace Hwpx

/-! ### Generic string helpers (Python `str.replace`, `str.index`) -/

/-- Splits `s` at the first occurrence of `pat`: returns the part before
the match and the part after it, or `none` when `pat` does not occur. -/
def splitAtSub (pat : List Char) : List Char → Option (List Char × List Char)
  | [] => none
  | c :: cs =>
    if pat.isPrefixOf (c :: cs) then some ([], (c :: cs).drop pat.length)
    else
      match splitAtSub pat cs with
      | some p => some (c :: p.1, p.2)
      | none => none

/-- Python `s.replace(pat, repl, 1)`: replace the first occurrence only;
when `pat` does not occur the string is returned unchanged. -/
def replaceFirstS (s pat repl : String) : String :=
  match splitAtSub pat.data s.data with
  | some p => (p.1 ++ repl.data ++ p.2).asString
  | none => s

/-- Does `pat` occur as a substring of `s`? -/
def hasSub (s pat : String) : Bool :=
  (splitAtSub pat.data s.data).isSome

/-- Fuel-driven worker for `replaceAllS`; each step either emits one
character or consumes a whole (nonempty) match, so `s.length + 1` fuel
always suffices. -/
def replaceAllAux (pat repl : List Char) : Nat → List Char → List Char
  | 0, s => s
  | _ + 1, [] => []
  | fuel + 1, c :: cs =>
    match splitAtSub pat (c :: cs) with
    | some p => p.1 ++ repl ++ replaceAllAux pat repl fuel p.2
    | none => c :: cs

/-- Python `s.replace(pat, repl)` for a nonempty `pat`: replace every
non-overlapping occurrence, scanning left to right. -/
def replaceAllS (s pat repl : String) : String :=
  (replaceAllAux pat.data repl.data (s.data.length + 1) s.data).asString

/-- Index of the first occurrence of `pat` in `s` at or after `start`
(Python `s.index(pat, start)`), as an `Option` instead of `ValueError`. -/
def indexOfFrom (s pat : String) (start : Nat) : Option Nat :=
  match splitAtSub pat.data (s.data.drop start) with
  | some p => some (start + p.1.length)
  | none => none

/-- Python slice `s[a:b]` (for `0 ≤ a`, `0 ≤ b`): empty when `b ≤ a`. -/
def strSlice (s : String) (a b : Nat) : String :=
  ((s.data.drop a).take (b - a)).asString

/-- `xml.sax.saxutils.escape`: replaces `&`, `<`, `>` by their entities
(`&` first, so a character-wise map coincides with the Python call). -/
def escChar (c : Char) : List Char :=
  if c = '&' then "&amp;".data
  else if c = '<' then "&lt;".data
  else if c = '>' then "&gt;".data
  else [c]

/-- `xml_escape` as used by the writer. -/
def xmlEscape (s : String) : String :=
  ((s.data.map escChar).flatten).asString

/-! ### `latex_to_hwp_script` (lines 81–100) -/

/-- The character `{` (written via its code point throughout). -/
def lbrace : Char := Char.ofNat 0x7b

/-- The character `}`. -/
def rbrace : Char := Char.ofNat 0x7d

/-- If `pat` is a prefix of `s`, the remainder of `s`, else `none`. -/
def matchPre (pat s : List Char) : Option (List Char) :=
  if pat.isPrefixOf s then some (s.drop pat.length) else none

/-- Regex fragment `([^}]*)\}`: the run of characters before the first
`}` together with the remainder after that `}`; fails when `s` has no
`}` (and then the enclosing regex match fails, as in Python). -/
def takeToRBrace : List Char → Option (List Char × List Char)
  | [] => none
  | c :: cs =>
    if c = rbrace then some ([], cs)
    else
      match takeToRBrace cs with
      | some p => some (c :: p.1, p.2)
      | none => none

/-- `re.sub` for the two-argument command patterns
(`pre ([^}]*) } mid ([^}]*) }` rebuilt through `mk`): leftmost matches,
scanning resumes after each replacement, a failed match slides the start
position one character to the right. -/
def sub2Aux (pre mid : List Char) (mk : List Char → List Char → List Char) :
    Nat → List Char → List Char
  | 0, s => s
  | _ + 1, [] => []
  | fuel + 1, c :: cs =>
    match matchPre pre (c :: cs) with
    | some r1 =>
      match takeToRBrace r1 with
      | some p1 =>
        match matchPre mid p1.2 with
        | some r2 =>
          match takeToRBrace r2 with
          | some p2 => mk p1.1 p2.1 ++ sub2Aux pre mid mk fuel p2.2
          | none => c :: sub2Aux pre mid mk fuel cs
        | none => c :: sub2Aux pre mid mk fuel cs
      | none => c :: sub2Aux pre mid mk fuel cs
    | none => c :: sub2Aux pre mid mk fuel cs

/-- `re.sub` for the one-argument command patterns (`pre ([^}]*) }`). -/
def sub1Aux (pre : List Char) (mk : List Char → List Char) :
    Nat → List Char → List Char
  | 0, s => s
  | _ + 1, [] => []
  | fuel + 1, c :: cs =>
    match matchPre pre (c :: cs) with
    | some r1 =>
      match takeToRBrace r1 with
      | some p1 => mk p1.1 ++ sub1Aux pre mk fuel p1.2
      | none => c :: sub1Aux pre mk fuel cs
    | none => c :: sub1Aux pre mk fuel cs

/-- `\frac{a}{b} → {a} over {b}`. -/
def fracSub (s : String) : String :=
  (sub2Aux "\\frac\x7b".data "\x7b".data
    (fun a b => "\x7b".data ++ a ++ "\x7d over \x7b".data ++ b ++ "\x7d".data)
    (s.data.length + 1) s.data).asString

/-- `\sum_{x}^{y} → sum from{x} to{y}`. -/
def sumSub (s : String) : String :=
  (sub2Aux "\\sum_\x7b".data "^\x7b".data
    (fun a b => "sum from\x7b".data ++ a ++ "\x7d to\x7b".data ++ b ++ "\x7d".data)
    (s.data.length + 1) s.data).asString

/-- `\int_{x}^{y} → int from{x} to{y}`. -/
def intSub (s : String) : String :=
  (sub2Aux "\\int_\x7b".data "^\x7b".data
    (fun a b => "int from\x7b".data ++ a ++ "\x7d to\x7b".data ++ b ++ "\x7d".data)
    (s.data.length + 1) s.data).asString

/-- `\sqrt{x} → sqrt{x}`. -/
def sqrtSub (s : String) : String :=
  (sub1Aux "\\sqrt\x7b".data
    (fun a => "sqrt\x7b".data ++ a ++ "\x7d".data)
    (s.data.length + 1) s.data).asString

/-- The fixed symbol-replacement table of rule 6, in source order. -/
def symbolTable : List (String × String) :=
  [("\\geq", ">="), ("\\leq", "<="), ("\\times", "times"),
   ("\\cdot", "cdot"), ("\\infty", "inf"), ("\\pm", "+-")]

/-- Rule 6: the chain of literal `str.replace` calls over `symbolTable`. -/
def symbolSub (s : String) : String :=
  symbolTable.foldl (fun acc p => replaceAllS acc p.1 p.2) s

/-- Rule 7, `re.sub(r'\\([a-zA-Z]+)', r'\1', s)`: drop the backslash of
any remaining alphabetic command word. -/
def stripCmdsAux : Nat → List Char → List Char
  | 0, s => s
  | _ + 1, [] => []
  | fuel + 1, c :: cs =>
    if c = '\\' ∧ ((cs.head?.map Char.isAlpha).getD false) = true then
      cs.takeWhile Char.isAlpha ++ stripCmdsAux fuel (cs.dropWhile Char.isAlpha)
    else c :: stripCmdsAux fuel cs

/-- Rule 7 on strings. -/
def stripCmds (s : String) : String :=
  (stripCmdsAux (s.data.length + 1) s.data).asString

/-- Python `s.strip()`: remove leading and trailing whitespace. -/
def pyStrip (s : String) : String :=
  (((s.data.dropWhile Char.isWhitespace).reverse.dropWhile
    Char.isWhitespace).reverse).asString

/-- Python `s.strip('$')`: remove all leading and trailing dollar signs. -/
def stripDollars (s : String) : String :=
  (((s.data.dropWhile (· == '$')).reverse.dropWhile (· == '$')).reverse).asString

/-- `latex_to_hwp_script` (lines 81–100): the full ordered rewrite
pipeline from LaTeX-like math to the 한글 equation script language. -/
def latexToHwpScript (latex : String) : String :=
  let s0 := stripDollars (pyStrip latex)
  let s1 := fracSub s0
  let s2 := sumSub s1
  let s3 := intSub s2
  let s4 := sqrtSub s3
  let s5 := replaceAllS (replaceAllS s4 "\\left(" "left(") "\\right)" "right)"
  let s6 := symbolSub s5
  stripCmds s6

/-! ### Pandoc inline nodes and `extract_text` (lines 104–138) -/

/-- Pandoc quote kinds (`c[0]` of a `Quoted` inline). -/
inductive QuoteKind where
  | single
  | double
  deriving DecidableEq, Repr

/-- Pandoc inline nodes, exactly the tagged variants dispatched by
`extract_text`.  Metadata that the writer never reads (attributes, link
targets, citation data, math display mode beyond its presence) is either
dropped or kept as an inert field. -/
inductive Inline where
  | str (s : String)
  | space
  | softBreak
  | lineBreak
  | strong (inls : List Inline)
  | emph (inls : List Inline)
  | strikeout (inls : List Inline)
  | superscript (inls : List Inline)
  | subscript (inls : List Inline)
  | smallCaps (inls : List Inline)
  | underline (inls : List Inline)
  | code (text : String)
  | link (inls : List Inline)
  | image (inls : List Inline)
  | quoted (kind : QuoteKind) (inls : List Inline)
  | cite (inls : List Inline)
  | math (display : Bool) (text : String)
  | span (inls : List Inline)
  deriving Repr

mutual

/-- One dispatch step of `extract_text`. -/
def extractInline : Inline → String
  | .str s => s
  | .space => " "
  | .softBreak => " "
  | .lineBreak => "\n"
  | .strong inls => extractText inls
  | .emph inls => extractText inls
  | .strikeout inls => extractText inls
  | .superscript inls => extractText inls
  | .subscript inls => extractText inls
  | .smallCaps inls => extractText inls
  | .underline inls => extractText inls
  | .code text => text
  | .link inls => extractText inls
  | .image inls => extractText inls
  | .quoted kind inls =>
    (if kind = QuoteKind.double then "\u201c" else "\u2018") ++
      extractText inls ++
      (if kind = QuoteKind.double then "\u201d" else "\u2019")
  | .cite inls => extractText inls
  | .math _ text => text
  | .span inls => extractText inls

/-- `extract_text` (lines 104–138): flatten a sequence of inline nodes to
plain text (the Python code collects parts in a list and joins them). -/
def extractText : List Inline → String
  | [] => ""
  | i :: rest => extractInline i ++ extractText rest

end

/-! ### Layout constants and `compute_lineseg_xml` (lines 155–226) -/

/-- `PAGE_TEXT_WIDTH`. -/
def pageTextWidth : Nat := 42520

/-- `CHAR_HEIGHT_NORMAL`. -/
def charHeightNormal : Nat := 1000

/-- `LINE_SPACING_PCT`. -/
def lineSpacingPct : Nat := 160

/-- `CHAR_HEIGHT_MAP.get(char_pr_id, CHAR_HEIGHT_NORMAL)`. -/
def charHeightOf (charPrId : Nat) : Nat :=
  if charPrId = 0 then 1000
  else if charPrId = 7 then 2200
  else if charPrId = 8 then 1600
  else if charPrId = 9 then 1300
  else if charPrId = 10 then 1000
  else charHeightNormal

/-- Width contributed by one character: `char_height` for a code point
above `0x2000`, else `char_height // 2`. -/
def charWidth (charHeight cp : Nat) : Nat :=
  if cp > 0x2000 then charHeight else charHeight / 2

/-- The loop body of `compute_lineseg_xml` (lines 194–202): emits every
line-start offset after offset `0`.  `i` is the index of the next
character, `cw` the running width, `n` the total text length. -/
def lineStartsAux (charHeight horzsize : Nat) :
    List Nat → Nat → Nat → Nat → List Nat
  | [], _, _, _ => []
  | cp :: rest, i, cw, n =>
    let cw1 := cw + charWidth charHeight cp
    if cw1 > horzsize ∧ i + 1 < n then
      (i + 1) :: lineStartsAux charHeight horzsize rest (i + 1) 0 n
    else
      lineStartsAux charHeight horzsize rest (i + 1) cw1 n

/-- `line_starts` of `compute_lineseg_xml`: the text offsets at which
lines begin, always starting with `0`. -/
def lineStarts (charHeight horzsize : Nat) (text : List Nat) : List Nat :=
  0 :: lineStartsAux charHeight horzsize text 0 0 text.length

/-- One `<hp:lineseg>` record. -/
structure LineSeg where
  textpos : Nat
  vertpos : Nat
  vertsize : Nat
  textheight : Nat
  baseline : Nat
  spacing : Nat
  horzpos : Nat
  horzsize : Nat
  flags : Nat
  deriving DecidableEq, Repr

/-- Flag bitmask of line `idx` out of `n` (lines 209–216):
`0x60000` for a lone line, `0x20000` for the first of several,
`0x40000` for the last of several, `0` for interior lines. -/
def linesegFlags (n idx : Nat) : Nat :=
  if n = 1 then 393216
  else if idx = 0 then 131072
  else if idx = n - 1 then 262144
  else 0

/-- `compute_lineseg_xml` as a list of records (the XML serialisation is
`linesegArrayXml` below).  `text` is the list of code points. -/
def computeLinesegs (text : List Nat)
    (charHeight lineSpacingPercent horzsize : Nat) : List LineSeg :=
  let vertsize := charHeight
  let spacing := charHeight * (lineSpacingPercent - 100) / 100
  let lineHeight := vertsize + spacing
  let baseline := charHeight * 85 / 100
  if text = [] then
    [{ textpos := 0, vertpos := 0, vertsize := vertsize,
       textheight := vertsize, baseline := baseline, spacing := spacing,
       horzpos := 0, horzsize := horzsize, flags := 393216 }]
  else
    let starts := lineStarts charHeight horzsize text
    let n := starts.length
    starts.enum.map (fun p =>
      { textpos := p.2, vertpos := p.1 * lineHeight, vertsize := vertsize,
        textheight := vertsize, baseline := baseline, spacing := spacing,
        horzpos := 0, horzsize := horzsize, flags := linesegFlags n p.1 })

/-- Serialisation of one `<hp:lineseg/>` element (attribute order as in
both f-strings of the source). -/
def linesegXml (seg : LineSeg) : String :=
  "<hp:lineseg textpos=\"" ++ toString seg.textpos ++
  "\" vertpos=\"" ++ toString seg.vertpos ++
  "\" vertsize=\"" ++ toString seg.vertsize ++
  "\" textheight=\"" ++ toString seg.textheight ++
  "\" baseline=\"" ++ toString seg.baseline ++
  "\" spacing=\"" ++ toString seg.spacing ++
  "\" horzpos=\"" ++ toString seg.horzpos ++
  "\" horzsize=\"" ++ toString seg.horzsize ++
  "\" flags=\"" ++ toString seg.flags ++ "\"/>"

/-- `compute_lineseg_xml` (lines 172–226): the full
`<hp:linesegarray>` string. -/
def linesegArrayXml (text : List Nat)
    (charHeight lineSpacingPercent horzsize : Nat) : String :=
  "<hp:linesegarray>" ++
    String.join ((computeLinesegs text charHeight lineSpacingPercent
      horzsize).map linesegXml) ++
  "</hp:linesegarray>"

/-! ### Paragraph / equation / table XML builders (lines 230–339)

The paragraph-id counter state `c` holds the last id handed out;
`next_para_id` increments it and returns the new value. -/

/-- `CODE_CHAR_PR_ID`. -/
def codeCharPrId : Nat := 10

/-- `CODE_FONT_REF`. -/
def codeFontRef : Nat := 2

/-- `TABLE_BORDER_FILL_ID`. -/
def tableBorderFillId : Nat := 3

/-- `make_paragraph_xml` (lines 230–242); returns the new counter and the
`<hp:p>` string. -/
def makeParagraphXml (c : Nat) (text : String)
    (styleId paraPrId charPrId : Nat) : Nat × String :=
  let pid := c + 1
  let safeText := if text ≠ "" then xmlEscape text else ""
  let charHeight := charHeightOf charPrId
  let lineseg := linesegArrayXml (text.data.map Char.toNat) charHeight
    lineSpacingPct pageTextWidth
  (pid,
    "<hp:p id=\"" ++ toString pid ++
    "\" paraPrIDRef=\"" ++ toString paraPrId ++
    "\" styleIDRef=\"" ++ toString styleId ++
    "\" pageBreak=\"0\" columnBreak=\"0\" merged=\"0\">" ++
    "<hp:run charPrIDRef=\"" ++ toString charPrId ++ "\"><hp:t>" ++
    safeText ++ "</hp:t></hp:run>" ++ lineseg ++ "</hp:p>")

/-- `make_equation_paragraph_xml` (lines 245–265). -/
def makeEquationParagraphXml (c : Nat) (latexStr : String) : Nat × String :=
  let pid := c + 1
  let script := latexToHwpScript latexStr
  let safeScript := xmlEscape script
  (pid,
    "<hp:p id=\"" ++ toString pid ++ "\" paraPrIDRef=\"0\" styleIDRef=\"0\"" ++
    " pageBreak=\"0\" columnBreak=\"0\" merged=\"0\">" ++
    "<hp:run charPrIDRef=\"0\">" ++
    "<hp:equation version=\"eqEdit\" baseLine=\"0\"" ++
    " textColor=\"#000000\" baseUnit=\"1000\" lineMode=\"0\" font=\"\">" ++
    "<hp:script>" ++ safeScript ++ "</hp:script>" ++
    "</hp:equation>" ++
    "</hp:run>" ++
    "<hp:linesegarray>" ++
    "<hp:lineseg textpos=\"0\" vertpos=\"0\" vertsize=\"1600\"" ++
    " textheight=\"1600\" baseline=\"1360\" spacing=\"400\"" ++
    " horzpos=\"0\" horzsize=\"42520\" flags=\"393216\"/>" ++
    "</hp:linesegarray>" ++
    "</hp:p>")

/-- One `<hp:tc>` cell of `make_table_xml` (lines 307–333). -/
def tableCellXml (c : Nat) (rowIdx colIdx : Nat) (cellStr : String)
    (colWidth rowHeight : Nat) : Nat × String :=
  let headerAttr := if rowIdx = 0 then "1" else "0"
  let safeText := if cellStr ≠ "" then xmlEscape cellStr else ""
  let cellPid := c + 1
  let cellLineseg := linesegArrayXml (cellStr.data.map Char.toNat)
    charHeightNormal lineSpacingPct colWidth
  (cellPid,
    "<hp:tc name=\"\" header=\"" ++ headerAttr ++ "\" hasMargin=\"0\"" ++
    " protect=\"0\" editable=\"0\" dirty=\"0\" borderFillIDRef=\"" ++
    toString tableBorderFillId ++ "\">" ++
    "<hp:subList id=\"\" textDirection=\"HORIZONTAL\"" ++
    " lineWrap=\"BREAK\" vertAlign=\"CENTER\"" ++
    " linkListIDRef=\"0\" linkListNextIDRef=\"0\"" ++
    " textWidth=\"0\" textHeight=\"0\"" ++
    " hasTextRef=\"0\" hasNumRef=\"0\">" ++
    "<hp:p id=\"" ++ toString cellPid ++ "\" paraPrIDRef=\"0\" styleIDRef=\"0\"" ++
    " pageBreak=\"0\" columnBreak=\"0\" merged=\"0\">" ++
    "<hp:run charPrIDRef=\"0\"><hp:t>" ++ safeText ++ "</hp:t></hp:run>" ++
    cellLineseg ++
    "</hp:p>" ++
    "</hp:subList>" ++
    "<hp:cellAddr colAddr=\"" ++ toString colIdx ++ "\" rowAddr=\"" ++
    toString rowIdx ++ "\"/>" ++
    "<hp:cellSpan colSpan=\"1\" rowSpan=\"1\"/>" ++
    "<hp:cellSz width=\"" ++ toString colWidth ++ "\" height=\"" ++
    toString rowHeight ++ "\"/>" ++
    "<hp:cellMargin left=\"141\" right=\"141\" top=\"141\" bottom=\"141\"/>" ++
    "</hp:tc>")

/-- The cells of one table row, threading the id counter. -/
def tableRowCellsXml (c : Nat) (rowIdx colIdx : Nat) (cells : List String)
    (colWidth rowHeight : Nat) : Nat × String :=
  match cells with
  | [] => (c, "")
  | cell :: rest =>
    let p1 := tableCellXml c rowIdx colIdx cell colWidth rowHeight
    let p2 := tableRowCellsXml p1.1 rowIdx (colIdx + 1) rest colWidth rowHeight
    (p2.1, p1.2 ++ p2.2)

/-- The `<hp:tr>` rows of `make_table_xml` (lines 305–334). -/
def tableRowsXml (c : Nat) (rowIdx : Nat) (rows : List (List String))
    (colWidth rowHeight : Nat) : Nat × String :=
  match rows with
  | [] => (c, "")
  | row :: rest =>
    let p1 := tableRowCellsXml c rowIdx 0 row colWidth rowHeight
    let p2 := tableRowsXml p1.1 (rowIdx + 1) rest colWidth rowHeight
    (p2.1, "<hp:tr>" ++ p1.2 ++ "</hp:tr>" ++ p2.2)

/-- `make_table_xml` (lines 268–339): optional caption paragraph followed
by the `<hp:p>`-wrapped `<hp:tbl>`. -/
def makeTableXml (c : Nat) (rows : List (List String)) (colCount : Nat)
    (captionText : String) : Nat × String :=
  let capStep : Nat × String :=
    if captionText ≠ "" then
      let p := makeParagraphXml c captionText 22 19 0
      (p.1, p.2)
    else (c, "")
  let pid := capStep.1 + 1
  let tblId := pid + 1
  let pageWidth := 42520
  let colWidth := pageWidth / max colCount 1
  let rowHeight := 1800
  let totalHeight := rowHeight * rows.length
  let opening :=
    "<hp:p id=\"" ++ toString pid ++ "\" paraPrIDRef=\"0\" styleIDRef=\"0\"" ++
    " pageBreak=\"0\" columnBreak=\"0\" merged=\"0\">" ++
    "<hp:run charPrIDRef=\"0\">" ++
    "<hp:tbl id=\"" ++ toString tblId ++ "\" zOrder=\"0\" numberingType=\"TABLE\"" ++
    " textWrap=\"TOP_AND_BOTTOM\" textFlow=\"BOTH_SIDES\" lock=\"0\"" ++
    " dropcapstyle=\"None\" pageBreak=\"CELL\" repeatHeader=\"0\"" ++
    " rowCnt=\"" ++ toString rows.length ++ "\" colCnt=\"" ++
    toString colCount ++ "\"" ++
    " cellSpacing=\"0\" borderFillIDRef=\"" ++ toString tableBorderFillId ++
    "\" noAdjust=\"0\">" ++
    "<hp:sz width=\"" ++ toString pageWidth ++ "\" widthRelTo=\"ABSOLUTE\"" ++
    " height=\"" ++ toString totalHeight ++
    "\" heightRelTo=\"ABSOLUTE\" protect=\"0\"/>" ++
    "<hp:pos treatAsChar=\"1\" affectLSpacing=\"0\" flowWithText=\"1\"" ++
    " allowOverlap=\"0\" holdAnchorAndSO=\"0\" vertRelTo=\"PARA\"" ++
    " horzRelTo=\"COLUMN\" vertAlign=\"TOP\" horzAlign=\"CENTER\"" ++
    " vertOffset=\"0\" horzOffset=\"0\"/>" ++
    "<hp:outMargin left=\"0\" right=\"0\" top=\"141\" bottom=\"141\"/>" ++
    "<hp:inMargin left=\"0\" right=\"0\" top=\"0\" bottom=\"0\"/>"
  let body := tableRowsXml tblId 0 rows colWidth rowHeight
  (body.1,
    capStep.2 ++ opening ++ body.2 ++ "</hp:tbl>" ++
    "<hp:t></hp:t></hp:run></hp:p>")

/-! ### Pandoc block nodes and `convert_blocks` (lines 343–467) -/

/-- Pandoc block nodes as dispatched by `convert_blocks`.  Projections
already performed by the Python code are built into the constructors:
a table cell is its block list (`cell[4]`), a table head is its row list
(`table_head[1]`, each row being `row[1]`), a body group is its row list
(`tbody[3]`), the caption is its block list (`caption[1]`), a `Div` is
its block list (`c[1]`). -/
inductive Block where
  | para (inls : List Inline)
  | plain (inls : List Inline)
  | header (level : Nat) (inls : List Inline)
  | codeBlock (code : String)
  | bulletList (items : List (List Block))
  | orderedList (start : Int) (items : List (List Block))
  | blockQuote (blocks : List Block)
  | table (captionBlocks : List Block)
      (headRows : List (List (List Block)))
      (bodies : List (List (List (List Block))))
  | horizontalRule
  | divBlock (blocks : List Block)
  | definitionList (items : List (List Inline × List (List Block)))
  | lineBlock (lines : List (List Inline))
  deriving Repr

/-- `HEADING_STYLE.get(level, NORMAL_STYLE)`:
(styleIDRef, paraPrIDRef, charPrIDRef). -/
def headingStyle (level : Nat) : Nat × Nat × Nat :=
  if level = 1 then (2, 2, 7)
  else if level = 2 then (3, 3, 8)
  else if level = 3 then (4, 4, 9)
  else if level = 4 then (5, 5, 0)
  else if level = 5 then (6, 6, 0)
  else if level = 6 then (7, 7, 0)
  else (0, 0, 0)

/-- Cell-text extraction (lines 409–414 and 425–430): concatenate the
extracted text of the `Para`/`Plain` blocks of a cell, ignoring every
other block kind.  Also used for the caption blocks (lines 440–444). -/
def cellText : List Block → String
  | [] => ""
  | b :: rest =>
    (match b with
     | .para inls => extractText inls
     | .plain inls => extractText inls
     | _ => "") ++ cellText rest

/-- The row-gathering loop (lines 404–417 / 421–433): keep each row's
cell texts when nonempty, tracking the running maximum row length. -/
def gatherRows : List (List (List Block)) → List (List String) → Nat →
    List (List String) × Nat
  | [], acc, cc => (acc, cc)
  | row :: rest, acc, cc =>
    let rt := row.map cellText
    if rt = [] then gatherRows rest acc cc
    else gatherRows rest (acc ++ [rt]) (max cc rt.length)

/-- The body-group loop (lines 419–433). -/
def gatherBodies : List (List (List (List Block))) → List (List String) →
    Nat → List (List String) × Nat
  | [], acc, cc => (acc, cc)
  | body :: rest, acc, cc =>
    let p := gatherRows body acc cc
    gatherBodies rest p.1 p.2

/-- The padding loop (lines 435–437): extend a row to `cc` cells with
empty strings. -/
def padRow (cc : Nat) (r : List String) : List String :=
  r ++ List.replicate (cc - r.length) ""

/-- The Table Grid Normalizer: gathered rows padded to the maximum
observed length, together with `col_count`. -/
def normalizeTable (headRows : List (List (List Block)))
    (bodies : List (List (List (List Block)))) : List (List String) × Nat :=
  let p1 := gatherRows headRows [] 0
  let p2 := gatherBodies bodies p1.1 p1.2
  (p2.1.map (padRow p2.2), p2.2)

/-- `"　" * indent_level`. -/
def indentStrOf (n : Nat) : String :=
  String.mk (List.replicate n '　')

/-- The `Para`/`Plain` branch (lines 352–359): a lone `Math` inline
becomes an equation paragraph, anything else a text paragraph with the
indentation marker. -/
def convertParaLike (c : Nat) (inls : List Inline) (ind : Nat) :
    Nat × List String :=
  match inls with
  | [Inline.math _ s] =>
    let p := makeEquationParagraphXml c s
    (p.1, [p.2])
  | _ =>
    let p := makeParagraphXml c (indentStrOf ind ++ extractText inls) 0 0 0
    (p.1, [p.2])

/-- The `CodeBlock` branch body (lines 367–371): one paragraph per line
with the code character style. -/
def codeLineParas (c : Nat) (indentStr : String) : List String →
    Nat × List String
  | [] => (c, [])
  | line :: rest =>
    let p := makeParagraphXml c (indentStr ++ line) 0 0 codeCharPrId
    let p2 := codeLineParas p.1 indentStr rest
    (p2.1, p.2 :: p2.2)

/-- The `LineBlock` branch body (lines 462–465). -/
def lineBlockParas (c : Nat) (indentStr : String) : List (List Inline) →
    Nat × List String
  | [] => (c, [])
  | inls :: rest =>
    let p := makeParagraphXml c (indentStr ++ extractText inls) 0 0 0
    let p2 := lineBlockParas p.1 indentStr rest
    (p2.1, p.2 :: p2.2)

mutual

/-- `convert_blocks` (lines 343–467): the block dispatch loop, with the
paragraph-id counter threaded through. -/
def convertBlocks : Nat → List Block → Nat → Nat × List String
  | c, [], _ => (c, [])
  | c, b :: rest, ind =>
    let p1 := convertBlock c b ind
    let p2 := convertBlocks p1.1 rest ind
    (p2.1, p1.2 ++ p2.2)

/-- One dispatch step of `convert_blocks`. -/
def convertBlock : Nat → Block → Nat → Nat × List String
  | c, .para inls, ind => convertParaLike c inls ind
  | c, .plain inls, ind => convertParaLike c inls ind
  | c, .header level inls, _ =>
    let sty := headingStyle level
    let p := makeParagraphXml c (extractText inls) sty.1 sty.2.1 sty.2.2
    (p.1, [p.2])
  | c, .codeBlock code, ind =>
    codeLineParas c (indentStrOf ind) (code.splitOn "\n")
  | c, .bulletList items, ind => convertBulletItems c items ind
  | c, .orderedList start items, ind => convertOrderedItems c start 0 items ind
  | c, .blockQuote bs, ind => convertBlocks c bs (ind + 1)
  | c, .table cap hr bodies, _ =>
    let p := normalizeTable hr bodies
    let capTxt := cellText cap
    if p.1 ≠ [] ∧ p.2 > 0 then
      let t := makeTableXml c p.1 p.2 capTxt
      (t.1, [t.2])
    else (c, [])
  | c, .horizontalRule, _ =>
    let p := makeParagraphXml c (String.mk (List.replicate 30 '━')) 0 0 0
    (p.1, [p.2])
  | c, .divBlock bs, ind => convertBlocks c bs ind
  | c, .definitionList items, ind => convertDefItems c items ind
  | c, .lineBlock lines, ind => lineBlockParas c (indentStrOf ind) lines

/-- The `BulletList` branch (lines 373–379): convert each item, then
splice the bullet marker into the first produced element's first
`<hp:t>` run (no marker when the item produced nothing). -/
def convertBulletItems : Nat → List (List Block) → Nat → Nat × List String
  | c, [], _ => (c, [])
  | c, item :: rest, ind =>
    let p1 := convertBlocks c item ind
    let marked : List String :=
      match p1.2 with
      | [] => []
      | x :: xs => replaceFirstS x "<hp:t>" "<hp:t>• " :: xs
    let p2 := convertBulletItems p1.1 rest ind
    (p2.1, marked ++ p2.2)

/-- The `OrderedList` branch (lines 381–390): as bullets, but the marker
is `start_num + idx` followed by `". "`. -/
def convertOrderedItems : Nat → Int → Nat → List (List Block) → Nat →
    Nat × List String
  | c, _, _, [], _ => (c, [])
  | c, start, idx, item :: rest, ind =>
    let p1 := convertBlocks c item ind
    let marked : List String :=
      match p1.2 with
      | [] => []
      | x :: xs =>
        replaceFirstS x "<hp:t>"
          ("<hp:t>" ++ toString (start + (idx : Int)) ++ ". ") :: xs
    let p2 := convertOrderedItems p1.1 start (idx + 1) rest ind
    (p2.1, marked ++ p2.2)

/-- The `DefinitionList` branch (lines 455–460). -/
def convertDefItems : Nat → List (List Inline × List (List Block)) → Nat →
    Nat × List String
  | c, [], _ => (c, [])
  | c, (term, defs) :: rest, ind =>
    let termP := makeParagraphXml c (indentStrOf ind ++ extractText term) 0 0 0
    let bodies := convertDefBodies termP.1 defs ind
    let p2 := convertDefItems bodies.1 rest ind
    (p2.1, termP.2 :: bodies.2 ++ p2.2)

/-- The inner loop of the `DefinitionList` branch: each definition's
blocks at `indent_level + 1`. -/
def convertDefBodies : Nat → List (List Block) → Nat → Nat × List String
  | c, [], _ => (c, [])
  | c, defBlocks :: rest, ind =>
    let p1 := convertBlocks c defBlocks (ind + 1)
    let p2 := convertDefBodies p1.1 rest ind
    (p2.1, p1.2 ++ p2.2)

end

/-! ### Claim-side companions for the Layout Metrics Engine and the
OrderedList numbering, written from the specification's wording -/

/-- Modelled from the spec's wording of the layout scan: split the text
into greedy line chunks, closing the current chunk as soon as the
accumulated width exceeds the page width while characters remain, and
resetting the width to zero for the next chunk. -/
def specLinesAux (charHeight horzsize : Nat) :
    List Nat → List Nat → Nat → List (List Nat)
  | [], acc, _ => [acc.reverse]
  | cp :: rest, acc, cw =>
    let cw1 := cw + charWidth charHeight cp
    if cw1 > horzsize ∧ rest ≠ [] then
      (cp :: acc).reverse :: specLinesAux charHeight horzsize rest [] 0
    else
      specLinesAux charHeight horzsize rest (cp :: acc) cw1

/-- The greedy line chunks of a text. -/
def specLines (charHeight horzsize : Nat) (text : List Nat) :
    List (List Nat) :=
  specLinesAux charHeight horzsize text [] 0

/-- Offsets at which successive chunks start, given the offset of the
first chunk. -/
def chunkStarts : Nat → List (List Nat) → List Nat
  | _, [] => []
  | s, chunk :: rest => s :: chunkStarts (s + chunk.length) rest

/-- Proof-side restatement of `lineStartsAux` with the
"more characters remain" test phrased on the remaining characters
instead of the total length (`lineStartsAux` is proved equal to it when
its length argument is consistent). -/
def lineStartsRel (charHeight horzsize : Nat) : List Nat → Nat → Nat → List Nat
  | [], _, _ => []
  | cp :: rest, i, cw =>
    let cw1 := cw + charWidth charHeight cp
    if cw1 > horzsize ∧ rest ≠ [] then
      (i + 1) :: lineStartsRel charHeight horzsize rest (i + 1) 0
    else
      lineStartsRel charHeight horzsize rest (i + 1) cw1

/-- Modelled from the spec's wording of the OrderedList numbering: the
running number is spliced into the first element of a nonempty item
conversion; an item converting to nothing receives no number. -/
def numberedChunk (num : Int) : List String → List String
  | [] => []
  | x :: xs =>
    replaceFirstS x "<hp:t>" ("<hp:t>" ++ toString num ++ ". ") :: xs

/-- Modelled from the spec's wording: per-item output chunks of an
ordered list, the running number starting at `num` and incrementing once
per item (whether or not the item produced elements). -/
def itemChunks : Nat → Int → List (List Block) → Nat → List (List String)
  | _, _, [], _ => []
  | c, num, item :: rest, ind =>
    let p := convertBlocks c item ind
    numberedChunk num p.2 :: itemChunks p.1 (num + 1) rest ind

/-! ### `build_title_block_xml` and `build_section_xml` (lines 471–515) -/

/-- `build_title_block_xml` (lines 471–485): title, subtitle,
author/date line, and a trailing blank separator when anything was
emitted.  Python truthiness of a string is `≠ ""`. -/
def buildTitleBlock (c : Nat) (title subtitle author dateStr : String) :
    Nat × List String :=
  let s1 : Nat × List String :=
    if title ≠ "" then
      let p := makeParagraphXml c title 0 0 7
      (p.1, [p.2])
    else (c, [])
  let s2 : Nat × List String :=
    if subtitle ≠ "" then
      let p := makeParagraphXml s1.1 subtitle 0 0 8
      (p.1, s1.2 ++ [p.2])
    else s1
  let s3 : Nat × List String :=
    if author ≠ "" ∨ dateStr ≠ "" then
      let metaLine :=
        String.intercalate " | " ([author, dateStr].filter (· ≠ ""))
      let p := makeParagraphXml s2.1 metaLine 0 0 0
      (p.1, s2.2 ++ [p.2])
    else s2
  if s3.2 ≠ [] then
    let p := makeParagraphXml s3.1 "" 0 0 0
    (p.1, s3.2 ++ [p.2])
  else s3

/-- Lines 502–505: the title block followed by the converted blocks,
with the fallback single empty paragraph when both are empty. -/
def sectionBodyParts (c : Nat) (blocks : List Block)
    (title subtitle author dateStr : String) : Nat × List String :=
  let tb := buildTitleBlock c title subtitle author dateStr
  let cp := convertBlocks tb.1 blocks 0
  let cpFinal : Nat × List String :=
    if tb.2 = [] ∧ cp.2 = [] then
      let p := makeParagraphXml cp.1 "" 0 0 0
      (p.1, [p.2])
    else cp
  (cpFinal.1, tb.2 ++ cpFinal.2)

/-- Lines 494–500: locate the `<hs:sec …>` open tag (XML header included
in the first piece) and the skeleton's first paragraph.  Python `index`
raises on a missing marker, modelled by `none`. -/
def sectionPieces (original : String) : Option (String × String) :=
  match indexOfFrom original "<hs:sec" 0 with
  | none => none
  | some secTagStart =>
    match indexOfFrom original ">" secTagStart with
    | none => none
    | some gtPos =>
      match indexOfFrom original "<hp:p " 0 with
      | none => none
      | some firstPStart =>
        match indexOfFrom original "</hp:p>" 0 with
        | none => none
        | some closeP =>
          some (strSlice original 0 (gtPos + 1),
                strSlice original firstPStart (closeP + 7))

/-- `build_section_xml` (lines 488–515) with the skeleton's
`section0.xml` contents passed in as `original`: header and open tag,
preserved first paragraph, generated body, closing tag. -/
def buildSectionXml (c : Nat) (original : String) (blocks : List Block)
    (title subtitle author dateStr : String) : Option (Nat × String) :=
  match sectionPieces original with
  | none => none
  | some pieces =>
    let body := sectionBodyParts c blocks title subtitle author dateStr
    some (body.1,
      pieces.1 ++ pieces.2 ++ String.join body.2 ++ "</hs:sec>")

/-! ### `update_header_xml` (lines 586–633)

The patcher rewrites three disjoint regions of `header.xml` with textual
substitutions: the per-language `<hh:fontface>` blocks (step 0, not
claim-relevant), the `<hh:charProperties>` and `<hh:borderFillList>`
catalogs (steps 1–2), and the `<hc:prev>` spacing fields inside
`<hh:paraPr>` records (step 3).

Steps 1–2 are modelled on a structured view of a catalog: its declared
`itemCnt` attribute value and the list of serialized entry strings
between the opening tag and the closing marker.  The source appends the
new entries immediately before the closing marker
(`header_xml.replace(marker, new + marker)`), i.e. after all existing
entries, and rewrites the count attribute with the literal regex
`itemCnt="7" → itemCnt="11"` (resp. `"2" → "3"`), which fires exactly
when the declared count is the literal `7` (resp. `2`). -/

/-- `HEADING_CHAR_PROPS`: (id, height, bold, fontRef). -/
def headingCharProps : List (Nat × Nat × Bool × Nat) :=
  [(7, 2200, true, 0), (8, 1600, true, 0), (9, 1300, false, 0)]

/-- `_make_charpr_xml` (lines 519–543). -/
def makeCharprXml (cprId height : Nat) (bold : Bool) (fontRef : Nat) :
    String :=
  let boldAttr := if bold then " bold=\"1\"" else ""
  let fr := toString fontRef
  "<hh:charPr id=\"" ++ toString cprId ++ "\" height=\"" ++
  toString height ++ "\"" ++
  " textColor=\"#000000\" shadeColor=\"none\"" ++
  " useFontSpace=\"0\" useKerning=\"0\" symMark=\"NONE\"" ++
  " borderFillIDRef=\"2\"" ++ boldAttr ++ ">" ++
  "<hh:fontRef hangul=\"" ++ fr ++ "\" latin=\"" ++ fr ++ "\"" ++
  " hanja=\"" ++ fr ++ "\" japanese=\"" ++ fr ++ "\"" ++
  " other=\"" ++ fr ++ "\" symbol=\"" ++ fr ++ "\" user=\"" ++ fr ++ "\"/>" ++
  "<hh:ratio hangul=\"100\" latin=\"100\" hanja=\"100\"" ++
  " japanese=\"100\" other=\"100\" symbol=\"100\" user=\"100\"/>" ++
  "<hh:spacing hangul=\"0\" latin=\"0\" hanja=\"0\"" ++
  " japanese=\"0\" other=\"0\" symbol=\"0\" user=\"0\"/>" ++
  "<hh:relSz hangul=\"100\" latin=\"100\" hanja=\"100\"" ++
  " japanese=\"100\" other=\"100\" symbol=\"100\" user=\"100\"/>" ++
  "<hh:offset hangul=\"0\" latin=\"0\" hanja=\"0\"" ++
  " japanese=\"0\" other=\"0\" symbol=\"0\" user=\"0\"/>" ++
  "<hh:underline type=\"NONE\" shape=\"SOLID\" color=\"#000000\"/>" ++
  "<hh:strikeout shape=\"NONE\" color=\"#000000\"/>" ++
  "<hh:outline type=\"NONE\"/>" ++
  "<hh:shadow type=\"NONE\" color=\"#C0C0C0\" offsetX=\"10\" offsetY=\"10\"/>" ++
  "</hh:charPr>"

/-- `_make_table_borderfill_xml` (lines 546–559). -/
def makeTableBorderfillXml : String :=
  "<hh:borderFill id=\"" ++ toString tableBorderFillId ++
  "\" threeD=\"0\" shadow=\"0\"" ++
  " centerLine=\"NONE\" breakCellSeparateLine=\"0\">" ++
  "<hh:slash type=\"NONE\" Crooked=\"0\" isCounter=\"0\"/>" ++
  "<hh:backSlash type=\"NONE\" Crooked=\"0\" isCounter=\"0\"/>" ++
  "<hh:leftBorder type=\"SOLID\" width=\"0.12 mm\" color=\"#000000\"/>" ++
  "<hh:rightBorder type=\"SOLID\" width=\"0.12 mm\" color=\"#000000\"/>" ++
  "<hh:topBorder type=\"SOLID\" width=\"0.12 mm\" color=\"#000000\"/>" ++
  "<hh:bottomBorder type=\"SOLID\" width=\"0.12 mm\" color=\"#000000\"/>" ++
  "<hh:diagonal type=\"NONE\" width=\"0.12 mm\" color=\"#000000\"/>" ++
  "</hh:borderFill>"

/-- The four `<hh:charPr>` entries appended by step 1: three heading
styles plus the code-block style. -/
def newCharPrEntries : List String :=
  headingCharProps.map (fun q => makeCharprXml q.1 q.2.1 q.2.2.1 q.2.2.2) ++
    [makeCharprXml codeCharPrId 1000 false codeFontRef]

/-- A style catalog: declared item count and serialized entries. -/
structure Catalog where
  itemCnt : Nat
  entries : List String
  deriving DecidableEq, Repr

/-- Step 1 on the `<hh:charProperties>` catalog: append the four new
entries before the closing marker; the count regex rewrites the literal
`7` to `11` and leaves any other declared count untouched. -/
def updateCharProperties (cat : Catalog) : Catalog :=
  { itemCnt := if cat.itemCnt = 7 then 11 else cat.itemCnt,
    entries := cat.entries ++ newCharPrEntries }

/-- Step 2 on the `<hh:borderFillList>` catalog: append the one new
border/fill entry; the count regex rewrites the literal `2` to `3`. -/
def updateBorderFillList (cat : Catalog) : Catalog :=
  { itemCnt := if cat.itemCnt = 2 then 3 else cat.itemCnt,
    entries := cat.entries ++ [makeTableBorderfillXml] }

/-- Token view of `header.xml` for step 3: the `<hh:paraPr id="N" …>`
open tags, the `<hc:prev value="V"` fields, and opaque stretches in
between. -/
inductive HeaderTok where
  | paraPrOpen (id : Nat)
  | prevField (value : Nat)
  | other (s : String)
  deriving DecidableEq, Repr

/-- Replace the first `<hc:prev value="0"` in the token stream by
`value="v"` (`re.sub` demands the whole pattern to match, so a stream
without such a field is returned unchanged). -/
def patchPrevAfter (v : Nat) : List HeaderTok → List HeaderTok
  | [] => []
  | HeaderTok.prevField 0 :: rest => HeaderTok.prevField v :: rest
  | t :: rest => t :: patchPrevAfter v rest

/-- Step 3's regex
`(<hh:paraPr\s+id="N"[^>]*>.*?)(<hc:prev\s+value=")0(")` with `DOTALL`:
from the first `<hh:paraPr id="N" …>` open tag, the non-greedy `.*?`
runs to the first following `<hc:prev value="0"` — wherever it lies,
inside the targeted record or past its end — and that field's `0` is
replaced by `v`.  (Catalog ids are unique, so at most one match.) -/
def patchPrev (targetId v : Nat) : List HeaderTok → List HeaderTok
  | [] => []
  | HeaderTok.paraPrOpen i :: rest =>
    if i = targetId then HeaderTok.paraPrOpen i :: patchPrevAfter v rest
    else HeaderTok.paraPrOpen i :: patchPrev targetId v rest
  | t :: rest => t :: patchPrev targetId v rest

/-- `HEADING_SPACING` in iteration order. -/
def headingSpacing : List (Nat × Nat) := [(2, 800), (3, 600), (4, 400)]

/-- Step 3 (lines 622–631): the spacing patch for each heading
paragraph-style id in turn. -/
def applyHeadingSpacing (toks : List HeaderTok) : List HeaderTok :=
  headingSpacing.foldl (fun acc p => patchPrev p.1 p.2 acc) toks

/-! ### Package assembly (`main`, lines 711–721) -/

/-- The content part name. -/
def sectionPartName : String := "Contents/section0.xml"

/-- The metadata part name. -/
def hpfPartName : String := "Contents/content.hpf"

/-- The style-catalog part name. -/
def headerPartName : String := "Contents/header.xml"

/-- `src_zip.read(name)`: `zipfile` resolves a name through its
name→info dictionary, in which a later entry of a duplicated name
overwrites an earlier one, so the bytes of the last part with that name
are returned. -/
def zipReadByName (parts : List (String × List Nat)) (name : String) :
    List Nat :=
  (parts.foldl (fun acc p => if p.1 = name then some p.2 else acc) none).getD []

/-- The repackaging loop of `main` (lines 711–721): every named part of
the skeleton archive is written to the output; the three known part
names receive the freshly built contents, every other name the bytes
read from the source archive. -/
def assembleParts (parts : List (String × List Nat))
    (sec hpf hdr : List Nat) : List (String × List Nat) :=
  parts.map (fun item =>
    if item.1 = sectionPartName then (item.1, sec)
    else if item.1 = hpfPartName then (item.1, hpf)
    else if item.1 = headerPartName then (item.1, hdr)
    else (item.1, zipReadByName parts item.1))

/-! ## Theorems -/

/-! ### C7: the Math Transliterator -/

/-- C7: the Math Transliterator is total (`latexToHwpScript` returns a
string for every input), transliterates `\frac{1}{2}` to
`{1} over {2}`, and both the symbol-replacement rule alone and the whole
pipeline are idempotent on the fixed-symbol spellings
`>=`, `<=`, `times`, `cdot`, `inf`, `+-`. -/
theorem mathTransliteratorTotal :
    (∀ s : String, ∃ out : String, latexToHwpScript s = out) ∧
    latexToHwpScript "\\frac\x7b1\x7d\x7b2\x7d" = "\x7b1\x7d over \x7b2\x7d" ∧
    (symbolSub ">=" = ">=" ∧ latexToHwpScript ">=" = ">=") ∧
    (symbolSub "<=" = "<=" ∧ latexToHwpScript "<=" = "<=") ∧
    (symbolSub "times" = "times" ∧ latexToHwpScript "times" = "times") ∧
    (symbolSub "cdot" = "cdot" ∧ latexToHwpScript "cdot" = "cdot") ∧
    (symbolSub "inf" = "inf" ∧ latexToHwpScript "inf" = "inf") ∧
    (symbolSub "+-" = "+-" ∧ latexToHwpScript "+-" = "+-") :=
  ⟨fun s => ⟨latexToHwpScript s, rfl⟩, by decide, by decide, by decide,
   by decide, by decide, by decide, by decide⟩

/-! ### C9: the Inline Text Extractor -/

/-- C9: `extract_text` is pure, total and deterministic on every defined
inline variant (equal inputs give equal outputs and every constructor is
covered), the empty sequence yields the empty string, and a `Quoted`
node wraps its children's extraction in curly double quotation marks for
the double kind and curly single quotation marks otherwise. -/
theorem extractPureTotal :
    (∀ xs ys : List Inline, xs = ys → extractText xs = extractText ys) ∧
    extractText [] = "" ∧
    (∀ inls : List Inline,
      extractInline (Inline.quoted QuoteKind.double inls) =
        "\u201c" ++ extractText inls ++ "\u201d") ∧
    (∀ inls : List Inline,
      extractInline (Inline.quoted QuoteKind.single inls) =
        "\u2018" ++ extractText inls ++ "\u2019") := by
  refine ⟨fun xs ys h => h ▸ rfl, by simp [extractText], ?_, ?_⟩ <;>
    intro inls <;> simp [extractInline]

/-- Witness for C9 at concrete inputs. -/
theorem extractPureTotal_witness :
    extractText [Inline.space, Inline.str "x"] =
      extractText [Inline.space, Inline.str "x"] ∧
    extractInline (Inline.quoted QuoteKind.double [Inline.str "hi"]) =
      "\u201c" ++ extractText [Inline.str "hi"] ++ "\u201d" :=
  ⟨extractPureTotal.1 [Inline.space, Inline.str "x"]
      [Inline.space, Inline.str "x"] rfl,
   extractPureTotal.2.2.1 [Inline.str "hi"]⟩

/-! ### C3: the style-catalog append -/

/-- Counterexample to C3 as stated: on a catalog whose declared
character-style count is `8` rather than the template's `7`, the count
regex does not fire, so after patching the declared count is not the
pre-patch count plus the four appended entries. -/
theorem styleCatalogCount_cex :
    (updateCharProperties ⟨8, []⟩).itemCnt ≠ 8 + newCharPrEntries.length ∧
    newCharPrEntries.length = 4 := by
  constructor <;> decide

/-- C3 (amended): when the pre-patch declared counts are the template's
values (7 character-style items, 2 border/fill items), patching updates
each declared count by exactly the number of appended entries (4 and 1);
in every case the pre-existing entries stay byte-identical and the new
entries are appended after them. -/
theorem styleCatalogAppend (cat bf : Catalog)
    (h7 : cat.itemCnt = 7) (h2 : bf.itemCnt = 2) :
    (updateCharProperties cat).entries = cat.entries ++ newCharPrEntries ∧
    newCharPrEntries.length = 4 ∧
    (updateCharProperties cat).itemCnt = cat.itemCnt + 4 ∧
    (updateBorderFillList bf).entries = bf.entries ++ [makeTableBorderfillXml] ∧
    (updateBorderFillList bf).itemCnt = bf.itemCnt + 1 := by
  refine ⟨rfl, by decide, ?_, rfl, ?_⟩ <;>
    simp [updateCharProperties, updateBorderFillList, h7, h2]

/-- Witness for C3 (amended) at the template's declared counts. -/
theorem styleCatalogAppend_witness :
    (⟨7, ["e1"]⟩ : Catalog).itemCnt = 7 ∧
    (⟨2, ["b1"]⟩ : Catalog).itemCnt = 2 ∧
    ((updateCharProperties ⟨7, ["e1"]⟩).entries =
        ["e1"] ++ newCharPrEntries ∧
      newCharPrEntries.length = 4 ∧
      (updateCharProperties ⟨7, ["e1"]⟩).itemCnt = 7 + 4 ∧
      (updateBorderFillList ⟨2, ["b1"]⟩).entries =
        ["b1"] ++ [makeTableBorderfillXml] ∧
      (updateBorderFillList ⟨2, ["b1"]⟩).itemCnt = 2 + 1) :=
  ⟨rfl, rfl, styleCatalogAppend ⟨7, ["e1"]⟩ ⟨2, ["b1"]⟩ rfl rfl⟩

/-! ### C4: the heading spacing-before patch -/

/-- C4 is the intended behaviour, but the code's regex misses it: on a
catalog whose targeted record (paraPr id 2) has no zero-valued
spacing-before field, the non-greedy `.*?` crosses the record boundary
and the patch rewrites the spacing-before field of a different
paragraph-style record (id 9 here) that merely holds the same literal
default `0`.  This theorem evaluates the patcher at that failing input. -/
theorem headingSpacingCrossRecord :
    applyHeadingSpacing
      [HeaderTok.paraPrOpen 2, HeaderTok.prevField 555,
       HeaderTok.paraPrOpen 9, HeaderTok.prevField 0] =
      [HeaderTok.paraPrOpen 2, HeaderTok.prevField 555,
       HeaderTok.paraPrOpen 9, HeaderTok.prevField 800] := by
  decide

/-! ### C6: the Package Assembler -/

/-- Counterexample to C6 as stated: in a skeleton archive with two parts
both named `"a"` (a name outside the rewritten set), the assembler reads
bytes by name (last duplicate wins in `zipfile`'s name table), so the
first part is written with the second part's bytes instead of its own. -/
theorem assembleDupName_cex :
    "a" ≠ sectionPartName ∧ "a" ≠ hpfPartName ∧ "a" ≠ headerPartName ∧
    (assembleParts [("a", [1]), ("a", [2])] [] [] [])[0]? =
      some ("a", [2]) ∧
    ([("a", [1]), ("a", [2])] : List (String × List Nat))[0]? =
      some ("a", [1]) := by
  refine ⟨by decide, by decide, by decide, by decide, by decide⟩

/-- If no later entry carries `name`, the name-table fold keeps its
accumulator. -/
theorem zipFold_skip (rest : List (String × List Nat)) (name : String)
    (acc : Option (List Nat)) (h : ∀ p ∈ rest, p.1 ≠ name) :
    rest.foldl (fun a p => if p.1 = name then some p.2 else a) acc = acc := by
  induction rest generalizing acc with
  | nil => rfl
  | cons q rest ih =>
    simp only [List.foldl_cons]
    rw [if_neg (h q (List.mem_cons_self q rest))]
    exact ih acc fun p hp => h p (List.mem_cons_of_mem q hp)

/-- With pairwise-distinct part names, reading a member part by name
returns that part's own bytes. -/
theorem zipRead_of_nodup (parts : List (String × List Nat))
    (hnd : (parts.map Prod.fst).Nodup) :
    ∀ p ∈ parts, zipReadByName parts p.1 = p.2 := by
  induction parts with
  | nil => intro p hp; cases hp
  | cons q rest ih =>
    intro p hp
    rw [List.map_cons, List.nodup_cons] at hnd
    rcases List.mem_cons.mp hp with rfl | hmem
    · show ((p :: rest).foldl
        (fun a r => if r.1 = p.1 then some r.2 else a) none).getD [] = p.2
      rw [List.foldl_cons, if_pos rfl]
      rw [zipFold_skip rest p.1 (some p.2) ?hne]
      · rfl
      case hne =>
        intro r hr hcontra
        exact hnd.1 (hcontra ▸ List.mem_map_of_mem Prod.fst hr)
    · have hq : ¬ q.1 = p.1 := by
        intro hcontra
        exact hnd.1 (hcontra ▸ List.mem_map_of_mem Prod.fst hmem)
      show ((q :: rest).foldl
        (fun a r => if r.1 = p.1 then some r.2 else a) none).getD [] = p.2
      simp only [List.foldl_cons, if_neg hq]
      exact ih hnd.2 p hmem

/-- C6 (amended): for a skeleton archive with pairwise-distinct part
names, the assembler writes every part whose name is outside the three
rewritten names with bytes exactly equal to the input part's bytes, and
substitutes the freshly built contents at the three rewritten names. -/
theorem assembleKeepsParts (parts : List (String × List Nat))
    (sec hpf hdr : List Nat) (hnd : (parts.map Prod.fst).Nodup) (i : Nat) :
    (assembleParts parts sec hpf hdr)[i]? = (parts[i]?).map (fun item =>
      if item.1 = sectionPartName then (item.1, sec)
      else if item.1 = hpfPartName then (item.1, hpf)
      else if item.1 = headerPartName then (item.1, hdr)
      else item) := by
  unfold assembleParts
  rw [List.getElem?_map]
  cases hg : parts[i]? with
  | none => rfl
  | some item =>
    simp only [Option.map_some']
    by_cases h1 : item.1 = sectionPartName
    · simp [h1]
    by_cases h2 : item.1 = hpfPartName
    · simp [h1, h2]
    by_cases h3 : item.1 = headerPartName
    · simp [h1, h2, h3]
    have hmem : item ∈ parts := by
      have := List.getElem?_eq_some.mp hg
      exact this.choose_spec ▸ List.getElem_mem this.choose
    simp only [if_neg h1, if_neg h2, if_neg h3]
    rw [zipRead_of_nodup parts hnd item hmem]

/-- Witness for C6 (amended) on a four-part archive with distinct
names. -/
theorem assembleKeepsParts_witness :
    (([("mimetype", [7]), (sectionPartName, [1]), (hpfPartName, [2]),
        (headerPartName, [3])] : List (String × List Nat)).map
      Prod.fst).Nodup ∧
    (assembleParts [("mimetype", [7]), (sectionPartName, [1]),
        (hpfPartName, [2]), (headerPartName, [3])] [11] [12] [13])[0]? =
      (([("mimetype", [7]), (sectionPartName, [1]), (hpfPartName, [2]),
          (headerPartName, [3])] : List (String × List Nat))[0]?).map
        (fun item =>
          if item.1 = sectionPartName then (item.1, [11])
          else if item.1 = hpfPartName then (item.1, [12])
          else if item.1 = headerPartName then (item.1, [13])
          else item) :=
  ⟨by decide,
   assembleKeepsParts [("mimetype", [7]), (sectionPartName, [1]),
     (hpfPartName, [2]), (headerPartName, [3])] [11] [12] [13] (by decide) 0⟩

/-! ### C1: the layout scan -/

/-- `lineStartsAux` called with a length argument consistent with the
remaining characters equals the restatement `lineStartsRel` that tests
the remaining characters directly. -/
theorem lineStartsAux_eq_rel (ch W : Nat) :
    ∀ (rest : List Nat) (i cw : Nat),
      lineStartsAux ch W rest i cw (i + rest.length) =
        lineStartsRel ch W rest i cw := by
  intro rest
  induction rest with
  | nil => intro i cw; rfl
  | cons cp cs ih =>
    intro i cw
    have hlen : i + (cp :: cs).length = (i + 1) + cs.length := by
      simp [List.length_cons]; omega
    have hiff : (i + 1 < i + (cp :: cs).length) ↔ cs ≠ [] := by
      rw [List.length_cons]
      constructor
      · intro h hnil
        rw [hnil] at h
        simp at h
      · intro h
        have hpos : 0 < cs.length := List.length_pos.mpr h
        omega
    simp only [lineStartsAux, lineStartsRel]
    by_cases hc : cw + charWidth ch cp > W ∧ cs ≠ []
    · rw [if_pos ⟨hc.1, hiff.mpr hc.2⟩, if_pos hc, hlen, ih]
    · rw [if_neg ?hcon, if_neg hc, hlen, ih]
      case hcon =>
        intro hcon
        exact hc ⟨hcon.1, hiff.mp hcon.2⟩

/-- The chunk starts of the spec-side greedy splitting are exactly the
line starts produced by the source-side scan. -/
theorem chunkStarts_specLinesAux (ch W : Nat) :
    ∀ (rest acc : List Nat) (s cw : Nat),
      chunkStarts s (specLinesAux ch W rest acc cw) =
        s :: lineStartsRel ch W rest (s + acc.length) cw := by
  intro rest
  induction rest with
  | nil => intro acc s cw; rfl
  | cons cp cs ih =>
    intro acc s cw
    simp only [specLinesAux, lineStartsRel]
    by_cases hc : cw + charWidth ch cp > W ∧ cs ≠ []
    · rw [if_pos hc, if_pos hc]
      simp only [chunkStarts]
      rw [ih [] (s + (cp :: acc).reverse.length) 0]
      have e1 : s + (cp :: acc).reverse.length = s + acc.length + 1 := by
        simp only [List.length_reverse, List.length_cons]
        omega
      rw [e1]
      simp
    · rw [if_neg hc, if_neg hc]
      rw [ih (cp :: acc) s (cw + charWidth ch cp)]
      have e1 : s + (cp :: acc).length = s + acc.length + 1 := by
        simp only [List.length_cons]
        omega
      rw [e1]

/-- The greedy chunks concatenate back to the input text. -/
theorem specLinesAux_flatten (ch W : Nat) :
    ∀ (rest acc : List Nat) (cw : Nat),
      (specLinesAux ch W rest acc cw).flatten = acc.reverse ++ rest := by
  intro rest
  induction rest with
  | nil => intro acc cw; simp [specLinesAux]
  | cons cp cs ih =>
    intro acc cw
    simp only [specLinesAux]
    by_cases hc : cw + charWidth ch cp > W ∧ cs ≠ []
    · rw [if_pos hc]
      simp only [List.flatten_cons, ih [] 0]
      simp
    · rw [if_neg hc, ih (cp :: acc) (cw + charWidth ch cp)]
      simp

/-- C1: for every text and positive `char_height` and `page_width`, the
scan accumulates `char_height` width units per character above code
point 0x2000 and `char_height / 2` otherwise, and closes a line exactly
when the accumulated width exceeds the page width while characters
remain, restarting at the following offset with the width reset to zero:
the source's line starts are precisely the chunk boundaries of the
spec-side greedy splitting (`specLines`, whose chunks concatenate back
to the text). -/
theorem layoutScanRefines (text : List Nat) (ch W : Nat)
    (hch : 0 < ch) (hW : 0 < W) :
    (specLines ch W text).flatten = text ∧
    lineStarts ch W text = chunkStarts 0 (specLines ch W text) := by
  constructor
  · simpa using specLinesAux_flatten ch W text [] 0
  · show 0 :: lineStartsAux ch W text 0 0 text.length =
      chunkStarts 0 (specLinesAux ch W text [] 0)
    rw [chunkStarts_specLinesAux ch W text [] 0 0]
    have h := lineStartsAux_eq_rel ch W text 0 0
    simp only [Nat.zero_add] at h ⊢
    rw [h]
    simp

/-- Witness for C1 on a mixed narrow/wide text. -/
theorem layoutScanRefines_witness :
    (0 : Nat) < 1000 ∧ (0 : Nat) < 1500 ∧
    ((specLines 1000 1500 [65, 66, 67, 68, 12354, 70]).flatten =
        [65, 66, 67, 68, 12354, 70] ∧
      lineStarts 1000 1500 [65, 66, 67, 68, 12354, 70] =
        chunkStarts 0 (specLines 1000 1500 [65, 66, 67, 68, 12354, 70])) :=
  ⟨by decide, by decide,
   layoutScanRefines [65, 66, 67, 68, 12354, 70] 1000 1500
     (by decide) (by decide)⟩

/-! ### C2: shape of the line-segment array -/

/-- Chains for `<` may weaken their bound. -/
theorem chain_lt_weaken {a b : Nat} {l : List Nat} (hab : a ≤ b)
    (h : List.Chain (· < ·) b l) : List.Chain (· < ·) a l := by
  cases l with
  | nil => exact List.Chain.nil
  | cons c cs =>
    cases h with
    | cons hbc hcs => exact List.Chain.cons (lt_of_le_of_lt hab hbc) hcs

/-- The emitted line starts strictly ascend from the scan position. -/
theorem lineStartsAux_chain (ch W : Nat) :
    ∀ (rest : List Nat) (i cw n : Nat),
      List.Chain (· < ·) i (lineStartsAux ch W rest i cw n) := by
  intro rest
  induction rest with
  | nil => intro i cw n; exact List.Chain.nil
  | cons cp cs ih =>
    intro i cw n
    simp only [lineStartsAux]
    by_cases hc : cw + charWidth ch cp > W ∧ i + 1 < n
    · rw [if_pos hc]
      exact List.Chain.cons (Nat.lt_succ_self i) (ih (i + 1) 0 n)
    · rw [if_neg hc]
      exact chain_lt_weaken (Nat.le_succ i) (ih (i + 1) _ n)

/-- The "last" flag values occur exactly at the final line index. -/
theorem linesegFlags_last_iff (n i : Nat) (hn : 0 < n) (hi : i < n) :
    (linesegFlags n i = 262144 ∨ linesegFlags n i = 393216) ↔ i = n - 1 := by
  unfold linesegFlags
  split_ifs <;> simp_all <;> omega

/-- The "first" flag values occur exactly at line index zero. -/
theorem linesegFlags_first_iff (n i : Nat) (hn : 0 < n) (hi : i < n) :
    (linesegFlags n i = 131072 ∨ linesegFlags n i = 393216) ↔ i = 0 := by
  unfold linesegFlags
  split_ifs <;> simp_all <;> omega

/-- Counting over `range n` a predicate that singles out one index below
`n` gives one. -/
theorem countP_range_unique (n m : Nat) (hm : m < n) (p : Nat → Bool)
    (hp : ∀ i, i < n → (p i = true ↔ i = m)) :
    (List.range n).countP p = 1 := by
  have h1 : (List.range n).countP p =
      (List.range n).countP (fun i => i == m) := by
    apply List.countP_congr
    intro i hi
    have hiin := List.mem_range.mp hi
    constructor
    · intro hpi
      simp [(hp i hiin).mp hpi]
    · intro hbeq
      have hb : i = m := by simpa using hbeq
      exact (hp i hiin).mpr hb
  rw [h1]
  have h2 : (List.range n).countP (fun i => i == m) =
      (List.range n).count m := rfl
  rw [h2]
  exact List.count_eq_one_of_mem (List.nodup_range n) (List.mem_range.mpr hm)

/-- For nonempty text, the segment fields project onto the line starts
and onto the index-determined flags. -/
theorem computeLinesegs_projections (text : List Nat) (ch pct W : Nat)
    (hne : text ≠ []) :
    (computeLinesegs text ch pct W).map LineSeg.textpos =
        lineStarts ch W text ∧
    (computeLinesegs text ch pct W).map LineSeg.flags =
      (List.range (lineStarts ch W text).length).map
        (linesegFlags (lineStarts ch W text).length) ∧
    (computeLinesegs text ch pct W).length =
      (lineStarts ch W text).length := by
  simp only [computeLinesegs, if_neg hne]
  refine ⟨?_, ?_, ?_⟩
  · rw [List.map_map]
    exact List.enum_map_snd _
  · rw [List.map_map]
    show List.map ((linesegFlags (lineStarts ch W text).length) ∘ Prod.fst)
      (lineStarts ch W text).enum = _
    rw [← List.map_map, List.enum_map_fst]
  · simp

/-- C2: for nonempty text and positive page width the segments' text
offsets strictly increase from 0, exactly one segment carries a "last"
flag value (0x40000 or 0x60000), exactly one carries a "first" flag
value (0x20000 or 0x60000), and a lone segment is flagged 0x60000; for
empty text exactly one segment is returned, with offset 0, vertical
position 0 and flags 0x60000. -/
theorem linesegArrayShape (text : List Nat) (ch pct W : Nat)
    (hne : text ≠ []) (hW : 0 < W) :
    (List.Chain' (· < ·)
        ((computeLinesegs text ch pct W).map LineSeg.textpos) ∧
      ((computeLinesegs text ch pct W).map LineSeg.textpos).head? =
        some 0 ∧
      (computeLinesegs text ch pct W).countP
        (fun s => s.flags == 262144 || s.flags == 393216) = 1 ∧
      (computeLinesegs text ch pct W).countP
        (fun s => s.flags == 131072 || s.flags == 393216) = 1 ∧
      ((computeLinesegs text ch pct W).length = 1 →
        (computeLinesegs text ch pct W).map LineSeg.flags = [393216])) ∧
    (∃ seg : LineSeg, computeLinesegs [] ch pct W = [seg] ∧
      seg.textpos = 0 ∧ seg.vertpos = 0 ∧ seg.flags = 393216) := by
  obtain ⟨htp, hfl, hlen⟩ := computeLinesegs_projections text ch pct W hne
  have hn : 0 < (lineStarts ch W text).length := by
    simp [lineStarts]
  refine ⟨⟨?_, ?_, ?_, ?_, ?_⟩, ?_⟩
  · rw [htp]
    show List.Chain (· < ·) 0 (lineStartsAux ch W text 0 0 text.length)
    exact lineStartsAux_chain ch W text 0 0 text.length
  · rw [htp]
    rfl
  · show List.countP ((fun v => v == 262144 || v == 393216) ∘ LineSeg.flags)
      (computeLinesegs text ch pct W) = 1
    rw [← List.countP_map, hfl, List.countP_map]
    refine countP_range_unique _ ((lineStarts ch W text).length - 1)
      (by omega) _ (fun i hi => ?_)
    rw [Function.comp_apply, Bool.or_eq_true, beq_iff_eq, beq_iff_eq]
    exact linesegFlags_last_iff _ i hn hi
  · show List.countP ((fun v => v == 131072 || v == 393216) ∘ LineSeg.flags)
      (computeLinesegs text ch pct W) = 1
    rw [← List.countP_map, hfl, List.countP_map]
    refine countP_range_unique _ 0 hn _ (fun i hi => ?_)
    rw [Function.comp_apply, Bool.or_eq_true, beq_iff_eq, beq_iff_eq]
    exact linesegFlags_first_iff _ i hn hi
  · intro h1
    have hone : (lineStarts ch W text).length = 1 := by omega
    rw [hfl, hone]
    decide
  · refine ⟨⟨0, 0, ch, ch, ch * 85 / 100, ch * (pct - 100) / 100, 0, W,
      393216⟩, ?_, rfl, rfl, rfl⟩
    simp [computeLinesegs]

/-- Witness for C2 on a concrete mixed text. -/
theorem linesegArrayShape_witness :
    ([65, 66, 67, 68, 12354, 70] : List Nat) ≠ [] ∧ (0 : Nat) < 1500 ∧
    (computeLinesegs [65, 66, 67, 68, 12354, 70] 1000 160 1500).countP
      (fun s => s.flags == 262144 || s.flags == 393216) = 1 :=
  ⟨by decide, by decide,
   (linesegArrayShape [65, 66, 67, 68, 12354, 70] 1000 160 1500
     (by decide) (by decide)).1.2.2.1⟩

/-! ### C5: the Table Grid Normalizer -/

/-- Left max-folding equals the max with the right-folded maximum. -/
theorem foldl_max_eq (l : List Nat) :
    ∀ a : Nat, l.foldl max a = max a (l.foldr max 0) := by
  induction l with
  | nil => intro a; simp
  | cons x xs ih =>
    intro a
    simp only [List.foldl_cons, List.foldr_cons]
    rw [ih (max a x), Nat.max_assoc]

/-- The gathered column count folds the row lengths (cell counts) into
the running maximum; rows with no cells contribute their length 0. -/
theorem gatherRows_snd (rows : List (List (List Block))) :
    ∀ (acc : List (List String)) (cc : Nat),
      (gatherRows rows acc cc).2 =
        rows.foldl (fun m r => max m r.length) cc := by
  induction rows with
  | nil => intro acc cc; rfl
  | cons row rest ih =>
    intro acc cc
    simp only [gatherRows, List.foldl_cons]
    by_cases h : row.map cellText = []
    · rw [if_pos h, ih]
      have hr : row = [] := List.map_eq_nil_iff.mp h
      rw [hr]
      simp
    · rw [if_neg h, ih]
      congr 1
      simp

/-- As `gatherRows_snd`, over all body groups. -/
theorem gatherBodies_snd (bodies : List (List (List (List Block)))) :
    ∀ (acc : List (List String)) (cc : Nat),
      (gatherBodies bodies acc cc).2 =
        bodies.flatten.foldl (fun m r => max m r.length) cc := by
  induction bodies with
  | nil => intro acc cc; rfl
  | cons body rest ih =>
    intro acc cc
    simp only [gatherBodies, List.flatten_cons, List.foldl_append]
    rw [ih, gatherRows_snd]

/-- Every gathered row is at most as long as the gathered column
count. -/
theorem gatherRows_mem_le (rows : List (List (List Block))) :
    ∀ (acc : List (List String)) (cc : Nat),
      (∀ r ∈ acc, r.length ≤ cc) →
      ∀ r ∈ (gatherRows rows acc cc).1,
        r.length ≤ (gatherRows rows acc cc).2 := by
  induction rows with
  | nil => intro acc cc hacc; exact hacc
  | cons row rest ih =>
    intro acc cc hacc
    simp only [gatherRows]
    by_cases h : row.map cellText = []
    · rw [if_pos h]
      exact ih acc cc hacc
    · rw [if_neg h]
      apply ih
      intro r hr
      rcases List.mem_append.mp hr with h1 | h2
      · exact le_trans (hacc r h1) (Nat.le_max_left _ _)
      · have hr2 : r = row.map cellText := by simpa using h2
        rw [hr2]
        exact Nat.le_max_right _ _

/-- As `gatherRows_mem_le`, over all body groups. -/
theorem gatherBodies_mem_le (bodies : List (List (List (List Block)))) :
    ∀ (acc : List (List String)) (cc : Nat),
      (∀ r ∈ acc, r.length ≤ cc) →
      ∀ r ∈ (gatherBodies bodies acc cc).1,
        r.length ≤ (gatherBodies bodies acc cc).2 := by
  induction bodies with
  | nil => intro acc cc hacc; exact hacc
  | cons body rest ih =>
    intro acc cc hacc
    simp only [gatherBodies]
    exact ih _ _ (gatherRows_mem_le body acc cc hacc)

/-- Folding row lengths from zero is the right-folded maximum of the
mapped lengths. -/
theorem foldl_rowmax_eq {α : Type} (L : List (List α)) :
    L.foldl (fun m r => max m r.length) 0 =
      (L.map List.length).foldr max 0 := by
  have h := List.foldl_map List.length max L (0 : Nat)
  rw [← h, foldl_max_eq]
  simp

/-- C5: the normalized grid is rectangular — every output row has
exactly `col_count` entries, `col_count` is the maximum input row length
(0 when there are no rows, short rows being padded with empty strings) —
and the Table block produces no output element exactly when the
normalization yields zero rows or zero columns. -/
theorem tableGridNormalizer (cap : List Block)
    (headRows : List (List (List Block)))
    (bodies : List (List (List (List Block)))) (c ind : Nat) :
    (∀ r ∈ (normalizeTable headRows bodies).1,
        r.length = (normalizeTable headRows bodies).2) ∧
    (normalizeTable headRows bodies).2 =
      ((headRows ++ bodies.flatten).map List.length).foldr max 0 ∧
    ((convertBlock c (Block.table cap headRows bodies) ind).2 = [] ↔
      (normalizeTable headRows bodies).1 = [] ∨
        (normalizeTable headRows bodies).2 = 0) := by
  refine ⟨?_, ?_, ?_⟩
  · intro r hr
    simp only [normalizeTable] at hr ⊢
    rcases List.mem_map.mp hr with ⟨r0, hr0, rfl⟩
    have hle : r0.length ≤
        (gatherBodies bodies (gatherRows headRows [] 0).1
          (gatherRows headRows [] 0).2).2 := by
      apply gatherBodies_mem_le bodies _ _ ?_ r0 hr0
      apply gatherRows_mem_le headRows [] 0
      intro r hrx
      cases hrx
    simp only [padRow, List.length_append, List.length_replicate]
    omega
  · simp only [normalizeTable]
    rw [gatherBodies_snd, gatherRows_snd, ← List.foldl_append,
      foldl_rowmax_eq]
  · simp only [convertBlock]
    by_cases hcond : (normalizeTable headRows bodies).1 ≠ [] ∧
        (normalizeTable headRows bodies).2 > 0
    · rw [if_pos hcond]
      have h1 := hcond.1
      have h2 := hcond.2
      simp [h1]
      omega
    · rw [if_neg hcond]
      simp only [List.nil_eq, true_iff]
      rcases not_and_or.mp hcond with h | h
      · left
        exact not_not.mp h
      · right
        omega

/-- Witness for C5 on the spec's scenario: header row `A B`, one body
row `1`. -/
theorem tableGridNormalizer_witness :
    (normalizeTable [[[Block.plain [Inline.str "A"]],
        [Block.plain [Inline.str "B"]]]]
      [[[[Block.plain [Inline.str "1"]]]]]).1 = [["A", "B"], ["1", ""]] ∧
    (normalizeTable [[[Block.plain [Inline.str "A"]],
        [Block.plain [Inline.str "B"]]]]
      [[[[Block.plain [Inline.str "1"]]]]]).2 = 2 ∧
    (∀ r ∈ (normalizeTable [[[Block.plain [Inline.str "A"]],
          [Block.plain [Inline.str "B"]]]]
        [[[[Block.plain [Inline.str "1"]]]]]).1,
      r.length = (normalizeTable [[[Block.plain [Inline.str "A"]],
          [Block.plain [Inline.str "B"]]]]
        [[[[Block.plain [Inline.str "1"]]]]]).2) :=
  ⟨by decide, by decide,
   (tableGridNormalizer [] [[[Block.plain [Inline.str "A"]],
       [Block.plain [Inline.str "B"]]]]
     [[[[Block.plain [Inline.str "1"]]]]] 0 0).1⟩

/-! ### C8: the OrderedList numbering -/

/-- The ordered-item loop produces exactly the claim-side numbered
chunks: the running number is the start plus the item's index. -/
theorem convertOrderedItems_chunks (ind : Nat) :
    ∀ (items : List (List Block)) (c : Nat) (s : Int) (idx : Nat),
      (convertOrderedItems c s idx items ind).2 =
        (itemChunks c (s + (idx : Int)) items ind).flatten := by
  intro items
  induction items with
  | nil => intro c s idx; rfl
  | cons item rest ih =>
    intro c s idx
    simp only [convertOrderedItems, itemChunks, List.flatten_cons]
    rw [ih]
    have harith : s + ((idx + 1 : Nat) : Int) = s + (idx : Int) + 1 := by
      push_cast
      ring
    rw [harith]
    cases h2 : (convertBlocks c item ind).2 with
    | nil => simp [numberedChunk, h2]
    | cons x xs => simp [numberedChunk, h2]

/-- C8: converting an OrderedList with start `s` yields the
concatenation of per-item chunks in which item `i` (0-based) has the
running number `s + i` spliced after the first `<hp:t>` of its first
element (`numberedChunk`/`itemChunks`, which give an item converting to
no elements no number at all); in particular an OrderedList starting at
3 with two one-paragraph items yields first text runs `3. a` and
`4. b`. -/
theorem orderedListNumbering :
    (∀ (c : Nat) (s : Int) (items : List (List Block)) (ind : Nat),
      (convertBlock c (Block.orderedList s items) ind).2 =
        (itemChunks c s items ind).flatten) ∧
    (∀ num : Int, numberedChunk num [] = []) ∧
    ((convertBlocks 3121190098
        [Block.orderedList 3 [[Block.para [Inline.str "a"]],
          [Block.para [Inline.str "b"]]]] 0).2.length = 2 ∧
      hasSub ((convertBlocks 3121190098
          [Block.orderedList 3 [[Block.para [Inline.str "a"]],
            [Block.para [Inline.str "b"]]]] 0).2.getD 0 "")
        "<hp:t>3. a</hp:t>" = true ∧
      hasSub ((convertBlocks 3121190098
          [Block.orderedList 3 [[Block.para [Inline.str "a"]],
            [Block.para [Inline.str "b"]]]] 0).2.getD 1 "")
        "<hp:t>4. b</hp:t>" = true) := by
  refine ⟨?_, fun num => rfl, by decide, by decide, by decide⟩
  intro c s items ind
  have h := convertOrderedItems_chunks ind items c s 0
  simpa [convertBlock] using h

/-! ### C10: the empty-document fallback paragraph -/

/-- Joining a single string is that string. -/
theorem stringJoin_singleton (s : String) : String.join [s] = s := by
  show "" ++ s = s
  apply String.ext
  simp [String.data_append]

/-- C10: when the metadata produces no title-block paragraphs and the
blocks convert to no elements, the section builder emits exactly one
empty text paragraph between the skeleton's preserved first paragraph
and the closing tag; and in every case the generated part list is
nonempty. -/
theorem emptyDocFallback :
    (∀ (c : Nat) (original : String) (blocks : List Block)
        (t st a d : String) (c1 c2 : Nat),
      buildTitleBlock c t st a d = (c1, []) →
      convertBlocks c1 blocks 0 = (c2, []) →
      buildSectionXml c original blocks t st a d =
        (sectionPieces original).map (fun pieces =>
          (c2 + 1, pieces.1 ++ pieces.2 ++
            (makeParagraphXml c2 "" 0 0 0).2 ++ "</hs:sec>"))) ∧
    (∀ (c : Nat) (blocks : List Block) (t st a d : String),
      (sectionBodyParts c blocks t st a d).2 ≠ []) := by
  constructor
  · intro c original blocks t st a d c1 c2 h1 h2
    unfold buildSectionXml
    cases hsp : sectionPieces original with
    | none => rfl
    | some pieces =>
      simp only [Option.map_some']
      unfold sectionBodyParts
      rw [h1]
      simp only
      rw [h2]
      simp [makeParagraphXml, stringJoin_singleton]
  · intro c blocks t st a d
    simp only [sectionBodyParts]
    by_cases hb : (buildTitleBlock c t st a d).2 = [] ∧
        (convertBlocks (buildTitleBlock c t st a d).1 blocks 0).2 = []
    · rw [if_pos hb]
      simp [hb.1]
    · rw [if_neg hb]
      intro hemp
      rcases List.append_eq_nil.mp hemp with ⟨e1, e2⟩
      exact hb ⟨e1, e2⟩

/-- Witness for C10 on a minimal skeleton with empty metadata and no
blocks. -/
theorem emptyDocFallback_witness :
    buildTitleBlock 10 "" "" "" "" = (10, []) ∧
    convertBlocks 10 [] 0 = (10, []) ∧
    buildSectionXml 10
        "<hs:sec a=\"b\"><hp:p x=\"y\"><hp:t>t</hp:t></hp:p></hs:sec>"
        [] "" "" "" "" =
      (sectionPieces
          "<hs:sec a=\"b\"><hp:p x=\"y\"><hp:t>t</hp:t></hp:p></hs:sec>").map
        (fun pieces =>
          (11, pieces.1 ++ pieces.2 ++
            (makeParagraphXml 10 "" 0 0 0).2 ++ "</hs:sec>")) :=
  ⟨by decide, by decide,
   emptyDocFallback.1 10
     "<hs:sec a=\"b\"><hp:p x=\"y\"><hp:t>t</hp:t></hp:p></hs:sec>"
     [] "" "" "" "" 10 10 (by decide) (by decide)⟩

end Hwpx
